import Mathlib

/-!
Verification development for the GlobalDataEngine data-source layer
(`src/engine/data_source.py`).  The Python source is shallowly embedded:
SQLite tables become Lean lists of rows (list order models rowid /
insertion order), `INSERT OR REPLACE` becomes a keyed upsert on those
lists, the per-symbol provider calls of a batch load become an oracle
function returning `Option` (with `none` modelling an exception raised
while handling that symbol), and the `functools.lru_cache` wrapper is
modelled explicitly.  Dates and timestamps stay ISO-8601 strings, compared
lexicographically exactly as SQLite compares its `text` values.
-/

set_option maxRecDepth 8000

namespace GlobalDataEngine

/-! ## String helpers mirroring the Python / SQLite primitives used by the source -/

/-- Model of Python string comparison chars (and of SQLite BINARY text
comparison): lexicographic order on code points. -/
def strLtChars : List Char → List Char → Bool
  | [], [] => false
  | [], _ :: _ => true
  | _ :: _, [] => false
  | a :: as, b :: bs => if a = b then strLtChars as bs else decide (a < b)

/-- Model of `s < t` on Python strings / SQLite text values. -/
def pyLt (s t : String) : Bool := strLtChars s.toList t.toList

/-- Model of Python `str.upper()` restricted to ASCII case mapping
(the only case mapping exercised by the source's symbols and names). -/
def pyUpper (s : String) : String := String.mk (s.toList.map Char.toUpper)

/-- Model of Python `str.strip()`. -/
def pyStrip (s : String) : String :=
  String.mk (((s.toList.dropWhile Char.isWhitespace).reverse.dropWhile Char.isWhitespace).reverse)

/-- Model of Python `str.isdigit()` (empty string is not a digit string). -/
def pyIsdigit (s : String) : Bool := !s.toList.isEmpty && s.toList.all Char.isDigit

/-- Model of Python `'.' in s`. -/
def pyContainsDot (s : String) : Bool := s.toList.any (fun c => decide (c = '.'))

/-- Whether `needle` is a leading segment of `hay` (on character lists). -/
def leadMatch : List Char → List Char → Bool
  | [], _ => true
  | _ :: _, [] => false
  | a :: as, b :: bs => decide (a = b) && leadMatch as bs

/-- Whether `needle` occurs as a contiguous segment of `hay`. -/
def subMatch (needle : List Char) : List Char → Bool
  | [] => needle.isEmpty
  | b :: bs => leadMatch needle (b :: bs) || subMatch needle bs

/-- Model of SQLite `name LIKE ?` with a pattern of the form
a percent sign, then `pat`, then a percent sign: a substring match that is
case-insensitive on ASCII letters (SQLite LIKE folds ASCII case only). -/
def likeContains (name pat : String) : Bool :=
  subMatch (pyUpper pat).toList (pyUpper name).toList

/-- Auxiliary splitter for `str.split('.')`. -/
def splitDotAux : List Char → List Char → List (List Char)
  | [], cur => [cur.reverse]
  | c :: cs, cur => if c = '.' then cur.reverse :: splitDotAux cs [] else splitDotAux cs (c :: cur)

/-- Model of Python `s.split('.')`. -/
def splitDot (s : String) : List String := (splitDotAux s.toList []).map String.mk

/-! ## Keyed tables and `INSERT OR REPLACE`

A SQLite table with a primary key is modelled as a `List` of rows in rowid
order.  `INSERT OR REPLACE` deletes any row carrying the conflicting key and
inserts the new row (with a fresh, larger rowid), which the list model renders
as filter-out-then-append.  `executemany` is a left fold of single upserts. -/

/-- One `INSERT OR REPLACE` of row `r` into table `t`, keyed by `key`. -/
def upsertRow {α κ : Type} [DecidableEq κ] (key : α → κ) (t : List α) (r : α) : List α :=
  t.filter (fun x => decide (key x ≠ key r)) ++ [r]

/-- `executemany` of `INSERT OR REPLACE`: upsert the rows of `rs` in order. -/
def upsertMany {α κ : Type} [DecidableEq κ] (key : α → κ) (t : List α) (rs : List α) : List α :=
  rs.foldl (upsertRow key) t

/-- Point query: the row of `t` stored under key `k` (the first one in rowid
order; under the primary-key invariant it is the only one). -/
def rowAt {α κ : Type} [DecidableEq κ] (key : α → κ) (t : List α) (k : κ) : Option α :=
  t.find? (fun x => decide (key x = k))

/-- The last row of `rs` carrying key `k`, if any (the one whose write wins). -/
def lastKeyed {α κ : Type} [DecidableEq κ] (key : α → κ) (rs : List α) (k : κ) : Option α :=
  rs.reverse.find? (fun x => decide (key x = k))

/-! ## A-share local store (`AShareCodeManager`) -/

/-- One row of the `a_share_codes` directory table (`_init_database`,
lines 184-194).  The `boolean` column gets SQLite NUMERIC affinity, so the
`'1'`/`'0'` status strings the loader binds are stored as the integers the
queries compare against; it is therefore modelled as `Bool`.  `last_updated`
keeps its ISO text form. -/
structure DirRow where
  code : String
  name : String
  full_code : String
  exchange : String
  type : String
  listing_date : String
  is_active : Bool
  last_updated : String
deriving DecidableEq

/-- One row of the `a_share_code_history` bar table (lines 203-217),
primary key `(code, date)`; every column is SQLite `text`. -/
structure BarRow where
  code : String
  name : String
  type : String
  date : String
  openPrice : String
  high : String
  low : String
  close : String
  volume : String
  amount : String
  turn : String
  pctChg : String
deriving DecidableEq

/-- The `(code, date)` primary key of the bar table. -/
def barKey (b : BarRow) : String × String := (b.code, b.date)

/-- The two tables owned by one `AShareCodeManager` database. -/
structure AShareDB where
  codes : List DirRow
  history : List BarRow
deriving DecidableEq

/-- One raw k-line row as returned by `bs.query_history_k_data_plus`
(fields `date,open,high,low,close,volume,amount,turn,pctChg`). -/
structure RawBar where
  date : String
  openPrice : String
  high : String
  low : String
  close : String
  volume : String
  amount : String
  turn : String
  pctChg : String
deriving DecidableEq

/-- Everything the provider returns while one iteration of the
`_load_all_codes` loop handles one stock: the `query_all_stock` row
(`code`, `code_name`), the `query_stock_basic` fields used (index 2 the
ipo date, index 4 the type digit, index 5 the listing status), and the
k-line rows.  An iteration that raises (network failure, an unmapped type
digit leaving `type` unbound, ...) is modelled by the fetch oracle
returning `none` for that stock. -/
structure PulledStock where
  code : String
  code_name : String
  ipoDate : String
  typeCode : String
  statusCode : String
  bars : List RawBar
deriving DecidableEq

/-- The `if`/`elif` chain of lines 248-257 mapping `stock_info_basic[4]`
to a type label.  The source has no `else` branch: a digit outside
`'1'`..`'5'` leaves `type` unbound and the iteration raises, which the
fetch oracle models as `none`; on pulled stocks this total map agrees with
the source. -/
def stockType (t : String) : String :=
  if t = "1" then "股票"
  else if t = "2" then "指数"
  else if t = "3" then "其他"
  else if t = "4" then "可转债"
  else "ETF"

/-- `code.split('.')[0].upper()` of line 258. -/
def exchangeOf (c : String) : String := pyUpper ((splitDot c).headD "")

/-- `code.split('.')[1]` of line 259: the bare directory code. -/
def dirCodeOf (c : String) : String := (splitDot c).getD 1 ""

/-- The directory row the loop upserts for a pulled stock (lines 261-265). -/
def dirRowOf (now : String) (p : PulledStock) : DirRow :=
  { code := dirCodeOf p.code
    name := p.code_name
    full_code := dirCodeOf p.code ++ "." ++ exchangeOf p.code
    exchange := exchangeOf p.code
    type := stockType p.typeCode
    listing_date := p.ipoDate
    is_active := decide (p.statusCode = "1")
    last_updated := now }

/-- The bar rows the loop builds for a pulled stock (lines 276-279); note
they carry the provider code (`sz.000001` form), not the bare code. -/
def barsOf (p : PulledStock) : List BarRow :=
  p.bars.map (fun r =>
    { code := p.code
      name := p.code_name
      type := stockType p.typeCode
      date := r.date
      openPrice := r.openPrice
      high := r.high
      low := r.low
      close := r.close
      volume := r.volume
      amount := r.amount
      turn := r.turn
      pctChg := r.pctChg })

/-- The `update a_share_codes set is_active = 0 where last_updated < cutoff`
statement of lines 267-270, applied to one row.  The comparison is SQLite
text comparison of the stored ISO timestamp against the cutoff date. -/
def staleMark (cutoff : String) (r : DirRow) : DirRow :=
  if pyLt r.last_updated cutoff then { r with is_active := false } else r

/-- One iteration of the `_load_all_codes` loop (lines 242-285) on the
pending database state: upsert the directory row, run the staleness update
over the whole directory, then upsert the stock's bar rows. -/
def processStock (cutoff now : String) (db : AShareDB) (p : PulledStock) : AShareDB :=
  let codes1 := upsertRow (fun r : DirRow => r.code) db.codes (dirRowOf now p)
  { codes := codes1.map (staleMark cutoff)
    history := upsertMany barKey db.history (barsOf p) }

/-- The whole loop body of `_load_all_codes` over the stock list, with the
per-stock provider calls abstracted as `fetch`.  `none` models the first
iteration that raises: control leaves the loop for the `except` handler and
none of the pending writes is ever committed. -/
def aShareBatch (cutoff now : String) (fetch : String → Option PulledStock) :
    List String → AShareDB → Option AShareDB
  | [], db => some db
  | c :: cs, db =>
    match fetch c with
    | none => none
    | some p => aShareBatch cutoff now fetch cs (processStock cutoff now db p)

/-- Observable outcome of one `_load_all_codes` call (lines 229-304):
the committed database afterwards, whether `bs.logout()` ran, and whether
the `except` handler installed the static `_fallback_codes` dict.  On
success `conn.commit()` publishes the pending state and `bs.logout()` runs;
on an exception the transaction is never committed (the connection is not
even closed), `bs.logout()` is never reached, and the fallback dict is set. -/
structure LoadResult where
  db : AShareDB
  loggedOut : Bool
  fallbackInstalled : Bool
deriving DecidableEq

/-- `AShareCodeManager._load_all_codes`, lines 229-304, for a run whose
`bs.login()` and `query_all_stock` succeed and whose per-stock handling is
described by `fetch`. -/
def aShareLoadAllCodes (cutoff now : String) (fetch : String → Option PulledStock)
    (stocks : List String) (db : AShareDB) : LoadResult :=
  match aShareBatch cutoff now fetch stocks db with
  | some db2 => { db := db2, loggedOut := true, fallbackInstalled := false }
  | none => { db := db, loggedOut := false, fallbackInstalled := true }

/-- The bare directory codes of the stocks actually seen in a pull. -/
def pulledDirCodes (fetch : String → Option PulledStock) (stocks : List String) : List String :=
  stocks.filterMap (fun c => (fetch c).map (fun p => dirCodeOf p.code))

/-- The provider-form history codes of the stocks actually seen in a pull. -/
def pulledHistCodes (fetch : String → Option PulledStock) (stocks : List String) : List String :=
  stocks.filterMap (fun c => (fetch c).map (fun p => p.code))

/-! ## The backfill request range (lines 145-155 and 272-275) -/

/-- One line of `data_source.log` as produced by the
`asctime —— name —— levelname —— message` formatter: the leading date part
of `asctime` and the remainder of the line. -/
structure LogLine where
  date : String
  rest : String
deriving DecidableEq

/-- `get_latest_date_with_data` (lines 145-155): scan the log lines from the
end for the first one containing `keyword` and return its leading date. -/
def get_latest_date_with_data (lines : List LogLine) (keyword : String) : Option String :=
  (lines.reverse.find? (fun l => subMatch keyword.toList l.rest.toList)).map (fun l => l.date)

/-- The start date `_load_all_codes` passes to `query_history_k_data_plus`
(lines 272-275): `self.code_datetime`, replaced by the fixed
`2010-01-01` epoch when the log scan found nothing. -/
def requestStartDate (code_datetime : Option String) : String :=
  match code_datetime with
  | none => "2010-01-01"
  | some d => d

/-- The upstream history requests one batch issues: for every stock of the
pull, the triple (provider code, start date, end date) passed to
`query_history_k_data_plus` on lines 274-275. -/
def historyRequests (code_datetime : Option String) (today : String)
    (stocks : List String) : List (String × String × String) :=
  stocks.map (fun c => (c, requestStartDate code_datetime, today))

/-- Modelled from the spec: the last locally stored bar date of one symbol
(`determine the last locally stored bar date`), the maximum `date` among the
symbol's rows of the bar table.  The source never computes this quantity;
the definition exists only to compare the spec's requested range against the
range the code actually requests. -/
def specLastStoredBarDate (hist : List BarRow) (c : String) : Option String :=
  (hist.filter (fun b => decide (b.code = c))).foldl
    (fun acc b => match acc with
      | none => some b.date
      | some d => some (if pyLt d b.date then b.date else d)) none

/-- Modelled from the spec: the start of the delta range the spec says the
engine requests for one symbol — the symbol's last stored bar date, or the
fixed epoch default if it has none. -/
def specRequestStart (hist : List BarRow) (c : String) : String :=
  match specLastStoredBarDate hist c with
  | some d => d
  | none => "2010-01-01"

/-! ## US stocks store (`USstocksManager`, lines 452-533) -/

/-- One row of `US_stocks_code_history` (lines 477-488), primary key
`(code, date)`. -/
structure USBarRow where
  code : String
  name : String
  date : String
  openPrice : String
  high : String
  low : String
  close : String
  volume : String
  last_updated : String
deriving DecidableEq

/-- The `(code, date)` primary key of the US bar table. -/
def usBarKey (b : USBarRow) : String × String := (b.code, b.date)

/-- One raw row of the `ak.stock_us_daily` frame. -/
structure USRawBar where
  date : String
  openPrice : String
  high : String
  low : String
  close : String
  volume : String
deriving DecidableEq

/-- The `records` list built on lines 516-518 for one symbol. -/
def usRecordsOf (code name now : String) (bars : List USRawBar) : List USBarRow :=
  bars.map (fun r =>
    { code := code, name := name, date := r.date, openPrice := r.openPrice
      high := r.high, low := r.low, close := r.close, volume := r.volume
      last_updated := now })

/-- `USstocksManager._load_all_codes` loop (lines 510-529) over the
`(Symbol, Name)` rows of the nasdaq csv: each iteration's `try` block is
modelled by `fetch` (`none` = the `ak.stock_us_daily` call raised), the
`except` handler prints and `continue`s, and an empty frame skips the
upsert.  The final `conn.commit()` (line 531) publishes the result. -/
def usLoadAllCodes (fetch : String → Option (List USRawBar)) (now : String) :
    List (String × String) → List USBarRow → List USBarRow
  | [], db => db
  | (code, name) :: rest, db =>
    match fetch code with
    | none => usLoadAllCodes fetch now rest db
    | some bars =>
      if bars.isEmpty then usLoadAllCodes fetch now rest db
      else usLoadAllCodes fetch now rest (upsertMany usBarKey db (usRecordsOf code name now bars))

/-! ## Symbol resolver (`get_stock_name` / `is_valid_a_share`, lines 306-393) -/

/-- The `SELECT name FROM a_share_codes WHERE code = ? AND is_active = 1`
query followed by `fetchone` (first row in rowid order). -/
def queryNameByCode (t : List DirRow) (c : String) : Option String :=
  (t.find? (fun r => decide (r.code = c) && r.is_active)).map (fun r => r.name)

/-- The `SELECT name FROM a_share_codes WHERE name LIKE ? AND is_active = 1`
query with the percent-wrapped pattern, followed by `fetchone`. -/
def queryNameLike (t : List DirRow) (pat : String) : Option String :=
  (t.find? (fun r => likeContains r.name pat && r.is_active)).map (fun r => r.name)

/-- `AShareCodeManager.get_stock_name` (lines 306-361): normalize the input
with `strip().upper()`, then branch on its shape — bare 6-digit code,
free-text name (fuzzy LIKE match), `CODE.EXCHANGE` (six characters before
the dot) or `EXCHANGE.CODE` (otherwise). -/
def get_stock_name (t : List DirRow) (symbol : String) : Option String :=
  let s := pyUpper (pyStrip symbol)
  if pyContainsDot s = false then
    if pyIsdigit s && decide (s.length = 6) then queryNameByCode t s
    else queryNameLike t s
  else
    let c := (splitDot s).headD ""
    if c.length = 6 then queryNameByCode t c
    else queryNameByCode t ((splitDot s).getD 1 "")

/-- `AShareCodeManager.is_valid_a_share` (lines 363-393): resolve the input
to a name, re-query the directory by that name among active rows, and
return `(valid, full_code, name, type, listing_date)` or the all-empty
tuple. -/
def is_valid_a_share (t : List DirRow) (symbol : String) :
    Bool × String × String × String × String :=
  match get_stock_name t symbol with
  | none => (false, "", "", "", "")
  | some n =>
    match t.find? (fun r => decide (r.name = n) && r.is_active) with
    | some r => (true, r.full_code, r.name, r.type, r.listing_date)
    | none => (false, "", "", "", "")

/-! ## A-share adapter (lines 420-450) -/

/-- The metadata dict returned by `AShareAdapter.get_asset_metadata`. -/
structure AssetMetadata where
  full_code : String
  name : String
  type : String
  listing_date : String
deriving DecidableEq

/-- The `SymbolValidationError` raised by the adapter, carrying the
offending symbol. -/
inductive AdapterError where
  | symbolValidation (symbol : String)
deriving DecidableEq

/-- `AShareAdapter.validate_symbol` (lines 437-439). -/
def validate_symbol (t : List DirRow) (symbol : String) : Bool :=
  (is_valid_a_share t symbol).1

/-- `AShareAdapter.get_asset_metadata` (lines 441-450): raise
`SymbolValidationError` when invalid, otherwise return the metadata dict
built from the `is_valid_a_share` tuple. -/
def get_asset_metadata (t : List DirRow) (symbol : String) :
    Except AdapterError AssetMetadata :=
  match is_valid_a_share t symbol with
  | (valid, fc, n, ty, ld) =>
    if valid then Except.ok { full_code := fc, name := n, type := ty, listing_date := ld }
    else Except.error (AdapterError.symbolValidation symbol)

/-! ## Unified router (`UnifiedMarketAPI`, lines 558-658)

`get_data` is decorated with `functools.lru_cache(maxsize=1024)`.  Its
docstring, opened on line 638, is never closed before line 658: the whole
`try:` / `if symbol not in self.asset_mapping:` text sits inside the string
literal, so the compiled body of `get_data` is a single expression statement
(the docstring) and every call returns `None` without validating anything or
touching any adapter, store or network. -/

/-- A Python argument value as passed to `get_data`; `strList` models a
list-valued argument such as a `fields` list, the one unhashable shape the
callers use. -/
inductive PyArg where
  | str (s : String)
  | pyNone
  | strList (xs : List String)
deriving DecidableEq

/-- Python hashability of an argument value: lists are unhashable. -/
def hashablePy : PyArg → Bool
  | PyArg.strList _ => false
  | _ => true

/-- A Python exception escaping the `get_data` call. -/
inductive PyExc where
  | typeError (msg : String)
  | symbolValidationError (msg : String)
deriving DecidableEq

/-- What one evaluation of the `get_data` body does. -/
inductive GetDataOutcome where
  | returnedNone
  | raised (e : PyExc)
deriving DecidableEq

/-- One evaluation of the compiled `get_data` body: its outcome plus how
many upstream (adapter/network) and local-store accesses it performed. -/
structure GetDataRun where
  outcome : GetDataOutcome
  upstreamCalls : Nat
  storeCalls : Nat
deriving DecidableEq

/-- The compiled body of `UnifiedMarketAPI.get_data` (lines 632-658): a lone
docstring expression.  It ignores its arguments, returns `None`, raises
nothing and performs zero upstream and zero store accesses. -/
def get_data_body (_args : List PyArg) : GetDataRun :=
  { outcome := GetDataOutcome.returnedNone, upstreamCalls := 0, storeCalls := 0 }

/-- `UnifiedMarketAPI._load_asset_config` (lines 607-630): the literal
symbol → (asset class, instrument kind) table. -/
def load_asset_config : List (String × String × String) :=
  [("000001.SZ", "A股", "stock"), ("600000.SH", "A股", "stock"),
   ("AAPL", "美股", "stock"), ("MSFT", "美股", "stock"),
   ("00700.HK", "港股", "stock"),
   ("CL=F", "期货", "future"), ("GC=F", "期货", "future"),
   ("BTC-USD", "加密货币", "crypto"), ("ETH-USD", "加密货币", "crypto"),
   ("USD/CNY", "外汇", "forex"), ("EUR/USD", "外汇", "forex"),
   ("US10Y", "债券", "bond")]

/-- `symbol in self.asset_mapping`. -/
def inAssetMapping (s : String) : Bool :=
  load_asset_config.any (fun e => decide (e.1 = s))

/-- The state of one `functools.lru_cache` wrapper: the size bound and the
cached entries, most recently used first. -/
structure LruCache (V : Type) where
  maxsize : Nat
  entries : List (List PyArg × V)
deriving DecidableEq

/-- The cached value stored under key `k`, if any. -/
def lruLookup {V : Type} (c : LruCache V) (k : List PyArg) : Option V :=
  (c.entries.find? (fun e => decide (e.1 = k))).map (fun e => e.2)

/-- One call through an `lru_cache` wrapper around `f` with (hashable) key
`k`: on a hit return the cached value (moved to the front) without invoking
`f`; on a miss invoke `f`, insert the result at the front and evict the
least recently used entry if the bound is exceeded.  The third component
counts how many times the wrapped function ran (0 or 1). -/
def lruCall {V : Type} (f : List PyArg → V) (c : LruCache V) (k : List PyArg) :
    V × LruCache V × Nat :=
  match c.entries.find? (fun e => decide (e.1 = k)) with
  | some e =>
    (e.2, { c with entries := (k, e.2) :: c.entries.filter (fun x => decide (x.1 ≠ k)) }, 0)
  | none =>
    let v := f k
    let es := (k, v) :: c.entries
    (v, { c with entries := if c.maxsize < es.length then es.dropLast else es }, 1)

/-- The full wrapper: `functools` first builds the key from the arguments
and hashes it; an unhashable argument raises `TypeError` before the wrapped
function can run. -/
def lruCachedCall {V : Type} (f : List PyArg → V) (c : LruCache V) (args : List PyArg) :
    Except PyExc (V × LruCache V × Nat) :=
  if args.all hashablePy then Except.ok (lruCall f c args)
  else Except.error (PyExc.typeError "unhashable type")

/-- The `functools._make_key` key for a `get_data` call: the positional
argument tuple followed by the flattened keyword items. -/
def get_data_key (symbol start_date end_date frequency interval : PyArg)
    (kwargs : List (String × PyArg)) : List PyArg :=
  [symbol, start_date, end_date, frequency, interval] ++
    kwargs.foldr (fun kv acc => PyArg.str kv.1 :: kv.2 :: acc) []

/-- A call of the decorated `UnifiedMarketAPI.get_data` against cache state
`c`. -/
def get_data_cached (c : LruCache GetDataRun)
    (symbol start_date end_date frequency interval : PyArg)
    (kwargs : List (String × PyArg)) :
    Except PyExc (GetDataRun × LruCache GetDataRun × Nat) :=
  lruCachedCall get_data_body c (get_data_key symbol start_date end_date frequency interval kwargs)

/-! ## Facts about the keyed upsert -/

theorem rowAt_upsertRow {α κ : Type} [DecidableEq κ] (key : α → κ) (t : List α) (r : α)
    (k : κ) :
    rowAt key (upsertRow key t r) k = if k = key r then some r else rowAt key t k := by
  induction t with
  | nil =>
    by_cases hk : k = key r
    · subst hk
      simp [rowAt, upsertRow, List.find?]
    · have hk' : ¬ (key r = k) := fun h => hk h.symm
      simp [rowAt, upsertRow, List.find?, hk, hk']
  | cons x xs ih =>
    by_cases hx : key x = key r
    · have hstep : upsertRow key (x :: xs) r = upsertRow key xs r := by
        simp [upsertRow, List.filter_cons, hx]
      rw [hstep, ih]
      by_cases hk : k = key r
      · simp [hk]
      · have hxk : ¬ (key x = k) := by
          rw [hx]; exact fun h => hk h.symm
        simp [hk, rowAt, List.find?, hxk]
    · have hstep : upsertRow key (x :: xs) r = x :: upsertRow key xs r := by
        simp [upsertRow, List.filter_cons, hx]
      rw [hstep]
      by_cases hxk : key x = k
      · have hk : ¬ (k = key r) := by
          rw [← hxk]; exact fun h => hx h
        simp [rowAt, List.find?, hxk, hk]
      · have h1 : rowAt key (x :: upsertRow key xs r) k = rowAt key (upsertRow key xs r) k := by
          simp [rowAt, List.find?, hxk]
        have h2 : rowAt key (x :: xs) k = rowAt key xs k := by
          simp [rowAt, List.find?, hxk]
        rw [h1, ih, h2]

theorem keysNodup_upsertRow {α κ : Type} [DecidableEq κ] (key : α → κ) (t : List α) (r : α)
    (h : (t.map key).Nodup) : ((upsertRow key t r).map key).Nodup := by
  unfold upsertRow
  rw [List.map_append, List.nodup_append]
  refine ⟨h.sublist (List.Sublist.map key (List.filter_sublist t)), by simp, ?_⟩
  intro a ha hb
  simp only [List.map_cons, List.map_nil, List.mem_singleton] at hb
  simp only [List.mem_map] at ha
  obtain ⟨x, hx, hxa⟩ := ha
  rw [List.mem_filter] at hx
  have hne : key x ≠ key r := by simpa using hx.2
  exact hne (hxa.trans hb)

theorem keysNodup_upsertMany {α κ : Type} [DecidableEq κ] (key : α → κ) (rs t : List α)
    (h : (t.map key).Nodup) : ((upsertMany key t rs).map key).Nodup := by
  induction rs generalizing t with
  | nil => exact h
  | cons r rs ih => exact ih (upsertRow key t r) (keysNodup_upsertRow key t r h)

theorem rowAt_upsertMany {α κ : Type} [DecidableEq κ] (key : α → κ) (rs t : List α) (k : κ) :
    rowAt key (upsertMany key t rs) k = (lastKeyed key rs k).or (rowAt key t k) := by
  induction rs generalizing t with
  | nil => simp [upsertMany, lastKeyed]
  | cons r rs ih =>
    have hstep : upsertMany key t (r :: rs) = upsertMany key (upsertRow key t r) rs := rfl
    rw [hstep, ih, rowAt_upsertRow]
    have hlk : lastKeyed key (r :: rs) k =
        (lastKeyed key rs k).or (if key r = k then some r else none) := by
      unfold lastKeyed
      rw [List.reverse_cons, List.find?_append]
      by_cases h : key r = k <;> simp [List.find?, h]
    rw [hlk, Option.or_assoc]
    by_cases hk : k = key r
    · subst hk
      simp
    · have hk' : ¬ (key r = k) := fun h => hk h.symm
      simp [hk, hk']

/-- C1.  Running the history backfill's `(code, date)`-keyed
`INSERT OR REPLACE` upsert over the same batch of bars twice leaves the bar
table with no duplicate `(code, date)` rows and with exactly the same row
stored under every key as after the first run: the upsert is idempotent.
Stated for any keyed store, covering both the A-share and the US history
tables. -/
theorem history_upsert_idempotent {α κ : Type} [DecidableEq κ] (key : α → κ)
    (t rs : List α) (h : (t.map key).Nodup) :
    ((upsertMany key t rs).map key).Nodup ∧
    ((upsertMany key (upsertMany key t rs) rs).map key).Nodup ∧
    ∀ k, rowAt key (upsertMany key (upsertMany key t rs) rs) k =
      rowAt key (upsertMany key t rs) k := by
  refine ⟨keysNodup_upsertMany key rs t h,
    keysNodup_upsertMany key rs _ (keysNodup_upsertMany key rs t h), ?_⟩
  intro k
  rw [rowAt_upsertMany, rowAt_upsertMany]
  cases hl : lastKeyed key rs k <;> simp [hl]

/-- Witness for C1: a concrete A-share bar batch, containing two writes to
the same `(code, date)` key, upserted into the empty history table. -/
theorem history_upsert_idempotent_witness :
    ((([] : List BarRow).map barKey).Nodup) ∧
    (((upsertMany barKey ([] : List BarRow)
        [⟨"sz.000001", "平安银行", "股票", "2024-01-04", "9.5", "9.9", "9.4", "9.8", "100", "980", "1.2", "0.4"⟩,
         ⟨"sz.000001", "平安银行", "股票", "2024-01-05", "9.8", "10.0", "9.7", "9.9", "120", "1188", "1.3", "0.1"⟩,
         ⟨"sz.000001", "平安银行", "股票", "2024-01-05", "9.8", "10.1", "9.7", "10.0", "130", "1300", "1.4", "0.2"⟩]).map barKey).Nodup) := by
  have h := history_upsert_idempotent barKey ([] : List BarRow)
    [⟨"sz.000001", "平安银行", "股票", "2024-01-04", "9.5", "9.9", "9.4", "9.8", "100", "980", "1.2", "0.4"⟩,
     ⟨"sz.000001", "平安银行", "股票", "2024-01-05", "9.8", "10.0", "9.7", "9.9", "120", "1188", "1.3", "0.1"⟩,
     ⟨"sz.000001", "平安银行", "股票", "2024-01-05", "9.8", "10.1", "9.7", "10.0", "130", "1300", "1.4", "0.2"⟩]
    (by decide)
  exact ⟨by decide, h.1⟩

/-! ## C2: which range the backfill actually requests -/

/-- A store whose only symbol has bars through 2024-01-05. -/
def c2History : List BarRow :=
  [⟨"sz.000001", "平安银行", "股票", "2024-01-05", "9.8", "10.0", "9.7", "9.9",
    "120", "1188", "1.3", "0.1"⟩]

/-- C2 counterexample.  With the log marker at 2024-03-01 and a non-empty
store whose symbol `sz.000001` has its last stored bar on 2024-01-05, the
batch requests the range starting at the log marker 2024-03-01 — not at the
symbol's last locally stored bar date as the claim states (here the request
even skips the missing 2024-01-05 .. 2024-03-01 history). -/
theorem backfill_request_ignores_store :
    historyRequests (some "2024-03-01") "2024-03-02" ["sz.000001"]
      = [("sz.000001", "2024-03-01", "2024-03-02")]
    ∧ specRequestStart c2History "sz.000001" = "2024-01-05"
    ∧ ("2024-03-01" : String) ≠ "2024-01-05" := by
  refine ⟨rfl, by decide, by decide⟩

/-- C2 amended.  On a second run `_load_all_codes` requests, for every stock
of the pull, the range from a single batch-level marker — the date of the
last log line matching `A-share codes into database` (or the fixed
2010-01-01 epoch if the log has none) — up to today.  The start date is the
same for every stock and is not derived from the store. -/
theorem backfill_requests_use_log_marker (logs : List LogLine) (today : String)
    (stocks : List String) :
    (∀ c s e, (c, s, e) ∈ historyRequests
        (get_latest_date_with_data logs "A-share codes into database") today stocks →
      s = requestStartDate (get_latest_date_with_data logs "A-share codes into database")
        ∧ e = today ∧ c ∈ stocks)
    ∧ (∀ c ∈ stocks,
        (c, requestStartDate (get_latest_date_with_data logs "A-share codes into database"),
          today) ∈ historyRequests
            (get_latest_date_with_data logs "A-share codes into database") today stocks) := by
  constructor
  · intro c s e hmem
    simp only [historyRequests, List.mem_map] at hmem
    obtain ⟨c', hc', heq⟩ := hmem
    cases heq
    exact ⟨rfl, rfl, hc'⟩
  · intro c hc
    simp only [historyRequests, List.mem_map]
    exact ⟨c, hc, rfl⟩

/-- Witness for the amended C2, at a concrete log and stock list. -/
theorem backfill_requests_use_log_marker_witness :
    ("sz.000001" ∈ (["sz.000001", "sh.600519"] : List String))
    ∧ ("sz.000001",
        requestStartDate (get_latest_date_with_data
          [⟨"2024-03-01", "engine.data_source —— INFO —— Loaded 5000 A-share codes into database"⟩]
          "A-share codes into database"),
        "2024-03-02") ∈ historyRequests
          (get_latest_date_with_data
            [⟨"2024-03-01", "engine.data_source —— INFO —— Loaded 5000 A-share codes into database"⟩]
            "A-share codes into database")
          "2024-03-02" ["sz.000001", "sh.600519"] := by
  refine ⟨by decide, ?_⟩
  exact (backfill_requests_use_log_marker
    [⟨"2024-03-01", "engine.data_source —— INFO —— Loaded 5000 A-share codes into database"⟩]
    "2024-03-02" ["sz.000001", "sh.600519"]).2 "sz.000001" (by decide)

/-! ## C3 / C6: behaviour of a batch containing a failing symbol -/

/-- Provider data for `sz.000001`. -/
def pulledPAB : PulledStock :=
  ⟨"sz.000001", "平安银行", "1991-04-03", "1", "1",
    [⟨"2024-01-05", "9.8", "10.0", "9.7", "9.9", "120", "1188", "1.3", "0.1"⟩]⟩

/-- Provider data for `sh.600519`. -/
def pulledMaotai : PulledStock :=
  ⟨"sh.600519", "贵州茅台", "2001-08-27", "1", "1",
    [⟨"2024-01-05", "1700", "1710", "1690", "1705", "50", "85250", "0.5", "0.3"⟩]⟩

/-- A fetch oracle for which the middle symbol `sz.000002` of the batch
raises while its neighbours succeed. -/
def fetchFailMiddle : String → Option PulledStock := fun c =>
  if c = "sz.000001" then some pulledPAB
  else if c = "sh.600519" then some pulledMaotai
  else none

/-- A fetch oracle for which every symbol of the batch succeeds. -/
def fetchAllOk : String → Option PulledStock := fun c =>
  if c = "sz.000001" then some pulledPAB
  else if c = "sh.600519" then some pulledMaotai
  else some pulledPAB

/-- If some stock of the list makes `fetch` raise, the whole A-share batch
loop aborts with the exception. -/
theorem aShareBatch_eq_none (cutoff now : String) (fetch : String → Option PulledStock) :
    ∀ (stocks : List String) (db : AShareDB) (c : String),
      c ∈ stocks → fetch c = none →
      aShareBatch cutoff now fetch stocks db = none := by
  intro stocks
  induction stocks with
  | nil => intro db c hc; exact absurd hc (List.not_mem_nil c)
  | cons c0 cs ih =>
    intro db c hc hfc
    rcases List.mem_cons.mp hc with h | h
    · subst h
      simp [aShareBatch, hfc]
    · cases hf0 : fetch c0 with
      | none => simp [aShareBatch, hf0]
      | some p => simpa [aShareBatch, hf0] using ih (processStock cutoff now db p) c h hfc

/-- If every stock of the list succeeds, the A-share batch loop completes. -/
theorem aShareBatch_isSome (cutoff now : String) (fetch : String → Option PulledStock) :
    ∀ (stocks : List String) (db : AShareDB),
      (∀ c ∈ stocks, (fetch c).isSome) →
      (aShareBatch cutoff now fetch stocks db).isSome := by
  intro stocks
  induction stocks with
  | nil => intro db _; simp [aShareBatch]
  | cons c0 cs ih =>
    intro db hall
    cases hf0 : fetch c0 with
    | none =>
      have := hall c0 (List.mem_cons_self c0 cs)
      rw [hf0] at this
      simp at this
    | some p =>
      simpa [aShareBatch, hf0] using
        ih (processStock cutoff now db p) (fun c hc => hall c (List.mem_cons_of_mem c0 hc))

/-- C3 counterexample.  In the A-share engine a batch over
`[sz.000001, sz.000002, sh.600519]` in which only the middle symbol fails
commits nothing: the first symbol's bars, although pulled successfully, are
not queryable afterwards and the fallback dict is installed — the batch did
not continue past the failure. -/
theorem ashare_batch_aborts_on_single_failure :
    (aShareLoadAllCodes "2024-02-03" "2024-03-04T09:00:00" fetchFailMiddle
        ["sz.000001", "sz.000002", "sh.600519"] ⟨[], []⟩).db = ⟨[], []⟩
    ∧ (aShareLoadAllCodes "2024-02-03" "2024-03-04T09:00:00" fetchFailMiddle
        ["sz.000001", "sz.000002", "sh.600519"] ⟨[], []⟩).fallbackInstalled = true
    ∧ rowAt barKey (aShareLoadAllCodes "2024-02-03" "2024-03-04T09:00:00" fetchFailMiddle
        ["sz.000001", "sz.000002", "sh.600519"] ⟨[], []⟩).db.history
        ("sz.000001", "2024-01-05") = none := by
  refine ⟨by decide, by decide, by decide⟩

/-- C3 amended.  Partial-failure isolation holds for the US stocks engine:
a symbol whose pull raises is skipped and the batch result is exactly the
result of the batch without it, so the other symbols' rows are committed.
In the A-share engine it fails: any symbol's failure aborts the batch,
commits nothing and installs the static fallback list. -/
theorem partial_failure_isolation_by_engine :
    (∀ (fetch : String → Option (List USRawBar)) (now : String)
        (pre post : List (String × String)) (code name : String) (db : List USBarRow),
        fetch code = none →
        usLoadAllCodes fetch now (pre ++ (code, name) :: post) db =
          usLoadAllCodes fetch now (pre ++ post) db)
    ∧ (∀ (cutoff now : String) (fetch : String → Option PulledStock)
        (stocks : List String) (db : AShareDB) (c : String),
        c ∈ stocks → fetch c = none →
        (aShareLoadAllCodes cutoff now fetch stocks db).db = db
        ∧ (aShareLoadAllCodes cutoff now fetch stocks db).fallbackInstalled = true) := by
  constructor
  · intro fetch now pre
    induction pre with
    | nil =>
      intro post code name db hfail
      simp [usLoadAllCodes, hfail]
    | cons b pre ih =>
      intro post code name db hfail
      obtain ⟨c0, n0⟩ := b
      cases hf0 : fetch c0 with
      | none => simpa [usLoadAllCodes, hf0] using ih post code name db hfail
      | some bars =>
        by_cases hb : bars.isEmpty <;>
          simpa [usLoadAllCodes, hf0, hb] using
            ih post code name _ hfail
  · intro cutoff now fetch stocks db c hc hfc
    have hnone := aShareBatch_eq_none cutoff now fetch stocks db c hc hfc
    simp [aShareLoadAllCodes, hnone]

/-- Witness for the amended C3: the US batch with a failing middle symbol
equals the batch without it, and the concrete A-share failing batch commits
nothing. -/
theorem partial_failure_isolation_witness :
    ((fun c => if c = "FAIL" then none else some [⟨"2024-01-05", "1", "2", "0.5", "1.5", "100"⟩])
        ("FAIL" : String) = (none : Option (List USRawBar)))
    ∧ usLoadAllCodes
        (fun c => if c = "FAIL" then none else some [⟨"2024-01-05", "1", "2", "0.5", "1.5", "100"⟩])
        "2024-03-04T09:00:00" ([("AAPL", "Apple")] ++ ("FAIL", "Broken") :: [("MSFT", "Microsoft")]) []
      = usLoadAllCodes
        (fun c => if c = "FAIL" then none else some [⟨"2024-01-05", "1", "2", "0.5", "1.5", "100"⟩])
        "2024-03-04T09:00:00" ([("AAPL", "Apple")] ++ [("MSFT", "Microsoft")]) []
    ∧ (aShareLoadAllCodes "2024-02-03" "2024-03-04T09:00:00" fetchFailMiddle
        ["sz.000001", "sz.000002", "sh.600519"] ⟨[], []⟩).db = ⟨[], []⟩ := by
  refine ⟨by decide, ?_, ?_⟩
  · exact partial_failure_isolation_by_engine.1
      (fun c => if c = "FAIL" then none else some [⟨"2024-01-05", "1", "2", "0.5", "1.5", "100"⟩])
      "2024-03-04T09:00:00" [("AAPL", "Apple")] [("MSFT", "Microsoft")] "FAIL" "Broken" []
      (by decide)
  · exact (partial_failure_isolation_by_engine.2 "2024-02-03" "2024-03-04T09:00:00"
      fetchFailMiddle ["sz.000001", "sz.000002", "sh.600519"] ⟨[], []⟩ "sz.000002"
      (by decide) (by decide)).1

/-- C6 counterexample.  A batch load that logs in and then fails on its
middle symbol never reaches `bs.logout()`: the `except` handler installs
the fallback dict and returns with the provider session still open. -/
theorem ashare_batch_leaks_session_on_failure :
    (aShareLoadAllCodes "2024-02-03" "2024-03-04T09:00:00" fetchFailMiddle
        ["sz.000001", "sz.000002", "sh.600519"] ⟨[], []⟩).loggedOut = false := by decide

/-- C6 amended.  `bs.logout()` runs exactly on the successful exit path: a
batch whose stocks all succeed logs out, and a batch in which any stock's
handling raises returns through the `except` handler without logging out,
leaking the provider session. -/
theorem logout_only_on_success :
    (∀ (cutoff now : String) (fetch : String → Option PulledStock)
        (stocks : List String) (db : AShareDB),
        (∀ c ∈ stocks, (fetch c).isSome) →
        (aShareLoadAllCodes cutoff now fetch stocks db).loggedOut = true)
    ∧ (∀ (cutoff now : String) (fetch : String → Option PulledStock)
        (stocks : List String) (db : AShareDB) (c : String),
        c ∈ stocks → fetch c = none →
        (aShareLoadAllCodes cutoff now fetch stocks db).loggedOut = false) := by
  constructor
  · intro cutoff now fetch stocks db hall
    have hs := aShareBatch_isSome cutoff now fetch stocks db hall
    rw [Option.isSome_iff_exists] at hs
    obtain ⟨db2, hdb2⟩ := hs
    simp [aShareLoadAllCodes, hdb2]
  · intro cutoff now fetch stocks db c hc hfc
    have hnone := aShareBatch_eq_none cutoff now fetch stocks db c hc hfc
    simp [aShareLoadAllCodes, hnone]

/-- Witness for the amended C6: an all-success batch logs out, the failing
batch does not. -/
theorem logout_only_on_success_witness :
    (aShareLoadAllCodes "2024-02-03" "2024-03-04T09:00:00" fetchAllOk
        ["sz.000001", "sh.600519"] ⟨[], []⟩).loggedOut = true
    ∧ (aShareLoadAllCodes "2024-02-03" "2024-03-04T09:00:00" fetchFailMiddle
        ["sz.000001", "sz.000002", "sh.600519"] ⟨[], []⟩).loggedOut = false := by
  constructor
  · exact logout_only_on_success.1 "2024-02-03" "2024-03-04T09:00:00" fetchAllOk
      ["sz.000001", "sh.600519"] ⟨[], []⟩ (by decide)
  · exact logout_only_on_success.2 "2024-02-03" "2024-03-04T09:00:00" fetchFailMiddle
      ["sz.000001", "sz.000002", "sh.600519"] ⟨[], []⟩ "sz.000002" (by decide) (by decide)

/-! ## C4: directory staleness marking -/

theorem staleMark_idem (cutoff : String) (r : DirRow) :
    staleMark cutoff (staleMark cutoff r) = staleMark cutoff r := by
  unfold staleMark
  by_cases h : pyLt r.last_updated cutoff <;> simp [h]

theorem staleMark_code (cutoff : String) (r : DirRow) :
    (staleMark cutoff r).code = r.code := by
  unfold staleMark
  by_cases h : pyLt r.last_updated cutoff <;> simp [h]

/-- A directory row whose code is not the pulled stock's bare code survives
one loop iteration as its stale-marked image. -/
theorem processStock_keeps_other (cutoff now : String) (db : AShareDB) (p : PulledStock)
    (r : DirRow) (hr : r ∈ db.codes) (hcode : r.code ≠ dirCodeOf p.code) :
    staleMark cutoff r ∈ (processStock cutoff now db p).codes := by
  unfold processStock
  refine List.mem_map_of_mem (staleMark cutoff) ?_
  unfold upsertRow
  refine List.mem_append_left _ (List.mem_filter.mpr ⟨hr, ?_⟩)
  simpa [dirRowOf] using hcode

/-- A history row whose key clashes with no upserted row survives the
upsert batch unchanged. -/
theorem upsertMany_keeps {α κ : Type} [DecidableEq κ] (key : α → κ) (b : α) :
    ∀ (rs t : List α), b ∈ t → (∀ x ∈ rs, key x ≠ key b) →
      b ∈ upsertMany key t rs := by
  intro rs
  induction rs with
  | nil => intro t hb _; exact hb
  | cons x rs ih =>
    intro t hb hne
    have hx : key x ≠ key b := hne x (List.mem_cons_self x rs)
    have hb1 : b ∈ upsertRow key t x := by
      unfold upsertRow
      refine List.mem_append_left _ (List.mem_filter.mpr ⟨hb, ?_⟩)
      simpa using fun h => hx h.symm
    exact ih (upsertRow key t x) hb1 (fun y hy => hne y (List.mem_cons_of_mem x hy))

/-- A history row for a symbol absent from the pull survives one loop
iteration unchanged. -/
theorem processStock_keeps_hist (cutoff now : String) (db : AShareDB) (p : PulledStock)
    (b : BarRow) (hb : b ∈ db.history) (hc : b.code ≠ p.code) :
    b ∈ (processStock cutoff now db p).history := by
  unfold processStock
  refine upsertMany_keeps barKey b (barsOf p) db.history hb ?_
  intro x hx
  unfold barsOf at hx
  obtain ⟨raw, _, hxeq⟩ := List.mem_map.mp hx
  intro hkey
  apply hc
  have hxcode : x.code = p.code := by rw [← hxeq]
  have : x.code = b.code := congrArg Prod.fst hkey
  rw [← this, hxcode]

/-- Across a successful batch, the stale-marked image of a row whose code is
never pulled stays in the directory. -/
theorem aShareBatch_stale_mem (cutoff now : String) (fetch : String → Option PulledStock)
    (r : DirRow) :
    ∀ (stocks : List String) (db db2 : AShareDB),
      aShareBatch cutoff now fetch stocks db = some db2 →
      r.code ∉ pulledDirCodes fetch stocks →
      staleMark cutoff r ∈ db.codes → staleMark cutoff r ∈ db2.codes := by
  intro stocks
  induction stocks with
  | nil =>
    intro db db2 hrun _ hmem
    cases hrun
    exact hmem
  | cons c0 cs ih =>
    intro db db2 hrun hnot hmem
    cases hf0 : fetch c0 with
    | none => simp [aShareBatch, hf0] at hrun
    | some p =>
      rw [show aShareBatch cutoff now fetch (c0 :: cs) db =
          aShareBatch cutoff now fetch cs (processStock cutoff now db p) by
        simp [aShareBatch, hf0]] at hrun
      have hsplit : pulledDirCodes fetch (c0 :: cs) =
          dirCodeOf p.code :: pulledDirCodes fetch cs := by
        simp [pulledDirCodes, List.filterMap_cons, hf0]
      rw [hsplit] at hnot
      have hhead : r.code ≠ dirCodeOf p.code := fun h => hnot (h ▸ List.mem_cons_self _ _)
      have htail : r.code ∉ pulledDirCodes fetch cs := fun h => hnot (List.mem_cons_of_mem _ h)
      have hstep : staleMark cutoff (staleMark cutoff r) ∈
          (processStock cutoff now db p).codes := by
        refine processStock_keeps_other cutoff now db p (staleMark cutoff r) hmem ?_
        rw [staleMark_code]
        exact hhead
      rw [staleMark_idem] at hstep
      exact ih (processStock cutoff now db p) db2 hrun htail hstep

/-- Across a successful batch, every directory code present before is still
present afterwards (no row is deleted). -/
theorem aShareBatch_code_surv (cutoff now : String) (fetch : String → Option PulledStock)
    (X : String) :
    ∀ (stocks : List String) (db db2 : AShareDB),
      aShareBatch cutoff now fetch stocks db = some db2 →
      (∃ y ∈ db.codes, y.code = X) → ∃ y ∈ db2.codes, y.code = X := by
  intro stocks
  induction stocks with
  | nil =>
    intro db db2 hrun hex
    cases hrun
    exact hex
  | cons c0 cs ih =>
    intro db db2 hrun hex
    cases hf0 : fetch c0 with
    | none => simp [aShareBatch, hf0] at hrun
    | some p =>
      rw [show aShareBatch cutoff now fetch (c0 :: cs) db =
          aShareBatch cutoff now fetch cs (processStock cutoff now db p) by
        simp [aShareBatch, hf0]] at hrun
      refine ih (processStock cutoff now db p) db2 hrun ?_
      obtain ⟨y, hy, hyX⟩ := hex
      by_cases hc : y.code = dirCodeOf p.code
      · refine ⟨staleMark cutoff (dirRowOf now p), ?_, ?_⟩
        · unfold processStock
          refine List.mem_map_of_mem (staleMark cutoff) ?_
          unfold upsertRow
          exact List.mem_append_right _ (List.mem_singleton.mpr rfl)
        · rw [staleMark_code]
          show (dirRowOf now p).code = X
          rw [show (dirRowOf now p).code = dirCodeOf p.code from rfl, ← hc]
          exact hyX
      · refine ⟨staleMark cutoff y, processStock_keeps_other cutoff now db p y hy hc, ?_⟩
        rw [staleMark_code]
        exact hyX

/-- Across a successful batch, every history row for a symbol absent from
the pull is untouched. -/
theorem aShareBatch_keeps_hist (cutoff now : String) (fetch : String → Option PulledStock)
    (b : BarRow) :
    ∀ (stocks : List String) (db db2 : AShareDB),
      aShareBatch cutoff now fetch stocks db = some db2 →
      b.code ∉ pulledHistCodes fetch stocks →
      b ∈ db.history → b ∈ db2.history := by
  intro stocks
  induction stocks with
  | nil =>
    intro db db2 hrun _ hmem
    cases hrun
    exact hmem
  | cons c0 cs ih =>
    intro db db2 hrun hnot hmem
    cases hf0 : fetch c0 with
    | none => simp [aShareBatch, hf0] at hrun
    | some p =>
      rw [show aShareBatch cutoff now fetch (c0 :: cs) db =
          aShareBatch cutoff now fetch cs (processStock cutoff now db p) by
        simp [aShareBatch, hf0]] at hrun
      have hsplit : pulledHistCodes fetch (c0 :: cs) = p.code :: pulledHistCodes fetch cs := by
        simp [pulledHistCodes, List.filterMap_cons, hf0]
      rw [hsplit] at hnot
      have hhead : b.code ≠ p.code := fun h => hnot (h ▸ List.mem_cons_self _ _)
      have htail : b.code ∉ pulledHistCodes fetch cs := fun h => hnot (List.mem_cons_of_mem _ h)
      exact ih (processStock cutoff now db p) db2 hrun htail
        (processStock_keeps_hist cutoff now db p b hmem hhead)

/-- C4.  Over any successful (non-empty) directory pull: a directory record
whose code is not seen in the pull and whose `last_updated` is older than
the 30-day cutoff ends up stored with `is_active = false`; no directory
record is ever deleted (every code present before is present after); and
the history rows of every symbol absent from the pull remain stored
unchanged, hence queryable. -/
theorem stale_unseen_records_deactivated_not_deleted
    (cutoff now : String) (fetch : String → Option PulledStock)
    (stocks : List String) (db db2 : AShareDB)
    (hrun : aShareBatch cutoff now fetch stocks db = some db2)
    (hne : stocks ≠ []) :
    (∀ r ∈ db.codes, r.code ∉ pulledDirCodes fetch stocks →
        pyLt r.last_updated cutoff = true →
        { r with is_active := false } ∈ db2.codes)
    ∧ (∀ r ∈ db.codes, ∃ y ∈ db2.codes, y.code = r.code)
    ∧ (∀ b ∈ db.history, b.code ∉ pulledHistCodes fetch stocks → b ∈ db2.history) := by
  refine ⟨?_, ?_, ?_⟩
  · intro r hr hnot hlt
    cases stocks with
    | nil => exact absurd rfl hne
    | cons c0 cs =>
      cases hf0 : fetch c0 with
      | none => simp [aShareBatch, hf0] at hrun
      | some p =>
        rw [show aShareBatch cutoff now fetch (c0 :: cs) db =
            aShareBatch cutoff now fetch cs (processStock cutoff now db p) by
          simp [aShareBatch, hf0]] at hrun
        have hsplit : pulledDirCodes fetch (c0 :: cs) =
            dirCodeOf p.code :: pulledDirCodes fetch cs := by
          simp [pulledDirCodes, List.filterMap_cons, hf0]
        rw [hsplit] at hnot
        have hhead : r.code ≠ dirCodeOf p.code := fun h => hnot (h ▸ List.mem_cons_self _ _)
        have htail : r.code ∉ pulledDirCodes fetch cs := fun h => hnot (List.mem_cons_of_mem _ h)
        have hstep := processStock_keeps_other cutoff now db p r hr hhead
        have hfinal := aShareBatch_stale_mem cutoff now fetch r cs
          (processStock cutoff now db p) db2 hrun htail hstep
        rw [show staleMark cutoff r = { r with is_active := false } by
          unfold staleMark; rw [hlt]; rfl] at hfinal
        exact hfinal
  · intro r hr
    exact aShareBatch_code_surv cutoff now fetch r.code stocks db db2 hrun ⟨r, hr, rfl⟩
  · intro b hb hnot
    exact aShareBatch_keeps_hist cutoff now fetch b stocks db db2 hrun hnot hb

/-- Fetch oracle for the C4 witness: only `sz.000001` is in the pull. -/
def fetchOnlyPAB : String → Option PulledStock := fun c =>
  if c = "sz.000001" then some pulledPAB else none

/-- C4 witness fixture: a directory record last updated in 2023 that the
pull does not see, together with one of its old history rows. -/
def c4OldRow : DirRow :=
  ⟨"600000", "浦发银行", "600000.SH", "SH", "股票", "1999-11-10", true, "2023-01-01T00:00:00"⟩

/-- The stored history row of the unseen symbol. -/
def c4OldBar : BarRow :=
  ⟨"sh.600000", "浦发银行", "股票", "2023-01-01", "7.2", "7.3", "7.1", "7.25",
    "300", "2175", "0.8", "0.7"⟩

/-- The store before the C4 witness pull. -/
def c4InitDB : AShareDB := ⟨[c4OldRow], [c4OldBar]⟩

/-- The store after the C4 witness pull, as the batch computes it. -/
def c4FinalDB : AShareDB :=
  ⟨[{ c4OldRow with is_active := false },
    ⟨"000001", "平安银行", "000001.SZ", "SZ", "股票", "1991-04-03", true,
      "2024-03-04T09:00:00"⟩],
   [c4OldBar,
    ⟨"sz.000001", "平安银行", "股票", "2024-01-05", "9.8", "10.0", "9.7", "9.9",
      "120", "1188", "1.3", "0.1"⟩]⟩

/-- Witness for C4 at the concrete pull. -/
theorem stale_unseen_records_witness :
    aShareBatch "2024-02-03" "2024-03-04T09:00:00" fetchOnlyPAB ["sz.000001"] c4InitDB
      = some c4FinalDB
    ∧ ({ c4OldRow with is_active := false } ∈ c4FinalDB.codes)
    ∧ (∃ y ∈ c4FinalDB.codes, y.code = c4OldRow.code)
    ∧ c4OldBar ∈ c4FinalDB.history := by
  have h := stale_unseen_records_deactivated_not_deleted "2024-02-03" "2024-03-04T09:00:00"
    fetchOnlyPAB ["sz.000001"] c4InitDB c4FinalDB (by decide) (by decide)
  refine ⟨by decide, ?_, ?_, ?_⟩
  · exact h.1 c4OldRow (by decide) (by decide) (by decide)
  · exact h.2.1 c4OldRow (by decide)
  · exact h.2.2 c4OldBar (by decide) (by decide)

/-! ## C5 / C10: the `lru_cache` wrapper around `get_data` -/

theorem filter_length_lt {β : Type} (p : β → Bool) :
    ∀ (l : List β) (e : β), e ∈ l → p e = false → (l.filter p).length < l.length := by
  intro l
  induction l with
  | nil => intro e he; exact absurd he (List.not_mem_nil e)
  | cons x xs ih =>
    intro e he hpe
    rcases List.mem_cons.mp he with h | h
    · subst h
      rw [List.filter_cons, hpe]
      exact Nat.lt_succ_of_le (List.length_filter_le p xs)
    · rw [List.filter_cons]
      cases hpx : p x
      · have hcond : ¬ (false = true) := by simp
        rw [if_neg hcond]
        exact Nat.lt_succ_of_lt (ih e h hpe)
      · rw [if_pos rfl, List.length_cons, List.length_cons]
        exact Nat.succ_lt_succ (ih e h hpe)

/-- Unfolded form of `lruCall` on a hit. -/
theorem lruCall_eq_hit {V : Type} (f : List PyArg → V) (c : LruCache V) (k : List PyArg)
    (e : List PyArg × V) (hf : c.entries.find? (fun x => decide (x.1 = k)) = some e) :
    lruCall f c k =
      (e.2, ⟨c.maxsize, (k, e.2) :: c.entries.filter (fun x => decide (x.1 ≠ k))⟩, 0) := by
  unfold lruCall
  rw [hf]

/-- Unfolded form of `lruCall` on a miss. -/
theorem lruCall_eq_miss {V : Type} (f : List PyArg → V) (c : LruCache V) (k : List PyArg)
    (hf : c.entries.find? (fun x => decide (x.1 = k)) = none) :
    lruCall f c k =
      (f k, ⟨c.maxsize,
        if c.maxsize < ((k, f k) :: c.entries).length then ((k, f k) :: c.entries).dropLast
        else (k, f k) :: c.entries⟩, 1) := by
  unfold lruCall
  rw [hf]

/-- After any call with key `k` on a cache of positive capacity, the entry
for `k` sits at the front holding the value that call returned. -/
theorem lruCall_front {V : Type} (f : List PyArg → V) (c : LruCache V) (k : List PyArg)
    (h : 1 ≤ c.maxsize) :
    (lruCall f c k).2.1.entries.find? (fun e => decide (e.1 = k)) =
      some (k, (lruCall f c k).1) := by
  cases hf : c.entries.find? (fun e => decide (e.1 = k)) with
  | some e =>
    rw [lruCall_eq_hit f c k e hf]
    simp [List.find?]
  | none =>
    rw [lruCall_eq_miss f c k hf]
    by_cases hlen : c.maxsize < ((k, f k) :: c.entries).length
    · cases hent : c.entries with
      | nil =>
        rw [hent] at hlen
        simp at hlen
        omega
      | cons y rest =>
        rw [hent] at hlen
        rw [if_pos hlen, List.dropLast_cons₂]
        simp [List.find?]
    · rw [if_neg hlen]
      simp [List.find?]

/-- A cache hit returns the stored value without invoking the wrapped
function. -/
theorem lruCall_hit {V : Type} (f : List PyArg → V) (c : LruCache V) (k : List PyArg)
    (v : V) (h : c.entries.find? (fun e => decide (e.1 = k)) = some (k, v)) :
    (lruCall f c k).1 = v ∧ (lruCall f c k).2.2 = 0 := by
  rw [lruCall_eq_hit f c k (k, v) h]
  exact ⟨rfl, rfl⟩

/-- C5.  The decorated `get_data` memoizes under a bounded cache keyed by
the full argument tuple: a second call with identical arguments returns the
first call's value with zero invocations of the wrapped body (hence zero
upstream and zero store accesses); the key determines and is determined by
every one of the five parameters, so changing any one of them produces a
distinct key; an uncached key is a miss that runs the body exactly once;
and the entry count never exceeds `maxsize` (1024 in the source). -/
theorem get_data_cache_correctness :
    (∀ (c : LruCache GetDataRun) (sym s e f i : PyArg) (kw : List (String × PyArg))
        (r₁ : GetDataRun) (c₁ : LruCache GetDataRun) (n₁ : Nat),
        1 ≤ c.maxsize →
        get_data_cached c sym s e f i kw = Except.ok (r₁, c₁, n₁) →
        ∃ c₂, get_data_cached c₁ sym s e f i kw = Except.ok (r₁, c₂, 0))
    ∧ (∀ (sym s e f i sym' s' e' f' i' : PyArg) (kw kw' : List (String × PyArg)),
        get_data_key sym s e f i kw = get_data_key sym' s' e' f' i' kw' →
        sym = sym' ∧ s = s' ∧ e = e' ∧ f = f' ∧ i = i')
    ∧ (∀ (c : LruCache GetDataRun) (sym s e f i : PyArg) (kw : List (String × PyArg)),
        (get_data_key sym s e f i kw).all hashablePy = true →
        lruLookup c (get_data_key sym s e f i kw) = none →
        ∃ c', get_data_cached c sym s e f i kw =
          Except.ok (get_data_body (get_data_key sym s e f i kw), c', 1))
    ∧ (∀ (c : LruCache GetDataRun) (k : List PyArg),
        c.entries.length ≤ c.maxsize →
        ((lruCall get_data_body c k).2.1).entries.length ≤ c.maxsize) := by
  refine ⟨?_, ?_, ?_, ?_⟩
  · intro c sym s e f i kw r₁ c₁ n₁ hmax hcall
    unfold get_data_cached lruCachedCall at hcall ⊢
    by_cases hh : (get_data_key sym s e f i kw).all hashablePy = true
    · rw [if_pos hh] at hcall ⊢
      have hlru : lruCall get_data_body c (get_data_key sym s e f i kw) = (r₁, c₁, n₁) :=
        Except.ok.inj hcall
      have hfront := lruCall_front get_data_body c (get_data_key sym s e f i kw) hmax
      rw [hlru] at hfront
      have hhit := lruCall_hit get_data_body c₁ (get_data_key sym s e f i kw) r₁ hfront
      refine ⟨(lruCall get_data_body c₁ (get_data_key sym s e f i kw)).2.1, ?_⟩
      congr 1
      exact Prod.ext hhit.1 (Prod.ext rfl hhit.2)
    · rw [if_neg hh] at hcall
      exact absurd hcall (by simp)
  · intro sym s e f i sym' s' e' f' i' kw kw' hkey
    unfold get_data_key at hkey
    simp only [List.cons_append, List.nil_append, List.cons.injEq] at hkey
    exact ⟨hkey.1, hkey.2.1, hkey.2.2.1, hkey.2.2.2.1, hkey.2.2.2.2.1⟩
  · intro c sym s e f i kw hh hmiss
    unfold get_data_cached lruCachedCall
    rw [if_pos hh]
    unfold lruLookup at hmiss
    rw [Option.map_eq_none'] at hmiss
    refine ⟨(lruCall get_data_body c (get_data_key sym s e f i kw)).2.1, ?_⟩
    congr 1
    rw [lruCall_eq_miss get_data_body c (get_data_key sym s e f i kw) hmiss]
  · intro c k hlen
    cases hf : c.entries.find? (fun e => decide (e.1 = k)) with
    | some e =>
      rw [lruCall_eq_hit get_data_body c k e hf]
      have hmem := List.mem_of_find?_eq_some hf
      have hpe :=
        List.find?_some (p := fun x : List PyArg × GetDataRun => decide (x.1 = k)) hf
      have hfail : (fun x : List PyArg × GetDataRun => decide (x.1 ≠ k)) e = false := by
        simp only [decide_eq_true_eq] at hpe
        simp [hpe]
      have hflt := filter_length_lt (fun x : List PyArg × GetDataRun => decide (x.1 ≠ k))
        c.entries e hmem hfail
      simp only [List.length_cons]
      omega
    | none =>
      rw [lruCall_eq_miss get_data_body c k hf]
      by_cases hc : c.maxsize < ((k, get_data_body k) :: c.entries).length
      · rw [if_pos hc]
        show ((k, get_data_body k) :: c.entries).dropLast.length ≤ c.maxsize
        rw [List.length_dropLast]
        simp only [List.length_cons]
        omega
      · rw [if_neg hc]
        show ((k, get_data_body k) :: c.entries).length ≤ c.maxsize
        simp only [List.length_cons] at hc ⊢
        omega

/-- Witness for C5 at a concrete call sequence on the fresh 1024-entry
cache. -/
theorem get_data_cache_correctness_witness :
    (∃ c₂, get_data_cached
        ⟨1024, [(get_data_key (PyArg.str "000001.SZ") (PyArg.str "2024-01-01")
            (PyArg.str "2024-01-05") (PyArg.str "daily") PyArg.pyNone [],
          ⟨GetDataOutcome.returnedNone, 0, 0⟩)]⟩
        (PyArg.str "000001.SZ") (PyArg.str "2024-01-01") (PyArg.str "2024-01-05")
        (PyArg.str "daily") PyArg.pyNone []
      = Except.ok (⟨GetDataOutcome.returnedNone, 0, 0⟩, c₂, 0))
    ∧ ((PyArg.str "000001.SZ") = (PyArg.str "000001.SZ") ∧ (PyArg.str "2024-01-01") = PyArg.str "2024-01-01"
        ∧ (PyArg.str "2024-01-05") = PyArg.str "2024-01-05" ∧ (PyArg.str "daily") = PyArg.str "daily"
        ∧ PyArg.pyNone = PyArg.pyNone)
    ∧ (∃ c', get_data_cached ⟨1024, []⟩ (PyArg.str "000001.SZ") (PyArg.str "2024-01-01")
        (PyArg.str "2024-01-05") (PyArg.str "intraday") (PyArg.str "1h") []
      = Except.ok (get_data_body (get_data_key (PyArg.str "000001.SZ") (PyArg.str "2024-01-01")
          (PyArg.str "2024-01-05") (PyArg.str "intraday") (PyArg.str "1h") []), c', 1))
    ∧ ((lruCall get_data_body (⟨1024, []⟩ : LruCache GetDataRun)
        (get_data_key (PyArg.str "MSFT") PyArg.pyNone PyArg.pyNone (PyArg.str "daily")
          PyArg.pyNone [])).2.1.entries.length ≤ 1024) := by
  refine ⟨?_, ?_, ?_, ?_⟩
  · exact get_data_cache_correctness.1
      ⟨1024, []⟩ (PyArg.str "000001.SZ") (PyArg.str "2024-01-01") (PyArg.str "2024-01-05")
      (PyArg.str "daily") PyArg.pyNone [] ⟨GetDataOutcome.returnedNone, 0, 0⟩
      ⟨1024, [(get_data_key (PyArg.str "000001.SZ") (PyArg.str "2024-01-01")
          (PyArg.str "2024-01-05") (PyArg.str "daily") PyArg.pyNone [],
        ⟨GetDataOutcome.returnedNone, 0, 0⟩)]⟩ 1
      (by decide) rfl
  · exact get_data_cache_correctness.2.1 (PyArg.str "000001.SZ") (PyArg.str "2024-01-01")
      (PyArg.str "2024-01-05") (PyArg.str "daily") PyArg.pyNone (PyArg.str "000001.SZ")
      (PyArg.str "2024-01-01") (PyArg.str "2024-01-05") (PyArg.str "daily") PyArg.pyNone
      [] [] rfl
  · exact get_data_cache_correctness.2.2.1 ⟨1024, []⟩ (PyArg.str "000001.SZ")
      (PyArg.str "2024-01-01") (PyArg.str "2024-01-05") (PyArg.str "intraday")
      (PyArg.str "1h") [] (by decide) rfl
  · exact get_data_cache_correctness.2.2.2 ⟨1024, []⟩
      (get_data_key (PyArg.str "MSFT") PyArg.pyNone PyArg.pyNone (PyArg.str "daily")
        PyArg.pyNone []) (by decide)

/-! ## C7: what `get_data` does with an unmapped symbol -/

/-- C7 (code bug evidence).  `PDD` is absent from the static asset-class
mapping, yet evaluating the compiled `get_data` body on it returns `None`
without raising `SymbolValidationError` and without a single upstream or
store access: the validation code of lines 655-657 sits inside the
never-closed docstring opened on line 638, contradicting the docstring's
own declared `SymbolValidationError` behaviour (and the module as a whole
cannot even be imported, because line 461 `if update` lacks its colon). -/
theorem get_data_returns_none_without_validation :
    inAssetMapping "PDD" = false
    ∧ get_data_body (get_data_key (PyArg.str "PDD") PyArg.pyNone PyArg.pyNone
        (PyArg.str "daily") PyArg.pyNone []) =
      { outcome := GetDataOutcome.returnedNone, upstreamCalls := 0, storeCalls := 0 }
    ∧ ∀ args : List PyArg,
        (get_data_body args).outcome ≠
          GetDataOutcome.raised (PyExc.symbolValidationError "无效的资产代码") := by
  refine ⟨by decide, rfl, ?_⟩
  intro args
  simp [get_data_body]

/-! ## C10: unhashable arguments and the cache wrapper -/

/-- C10.  A `get_data` call whose built key contains an unhashable value
(for example a list-valued `fields` keyword argument) raises `TypeError`
inside the `lru_cache` wrapper; the call never reaches the wrapped body, so
no symbol validation and no data retrieval is attempted. -/
theorem unhashable_argument_raises_type_error
    (c : LruCache GetDataRun) (sym s e f i : PyArg) (kw : List (String × PyArg))
    (h : ∃ a ∈ get_data_key sym s e f i kw, hashablePy a = false) :
    get_data_cached c sym s e f i kw = Except.error (PyExc.typeError "unhashable type") := by
  unfold get_data_cached lruCachedCall
  have hall : (get_data_key sym s e f i kw).all hashablePy = false := by
    rw [List.all_eq_false]
    obtain ⟨a, ha, hfa⟩ := h
    exact ⟨a, ha, by simp [hfa]⟩
  rw [if_neg (by simp [hall])]

/-- Witness for C10: a call passing a list-valued `fields` keyword argument
on the fresh cache. -/
theorem unhashable_argument_witness :
    (∃ a ∈ get_data_key (PyArg.str "000001.SZ") (PyArg.str "2024-01-01")
        (PyArg.str "2024-01-05") (PyArg.str "daily") PyArg.pyNone
        [("fields", PyArg.strList ["close"])], hashablePy a = false)
    ∧ get_data_cached ⟨1024, []⟩ (PyArg.str "000001.SZ") (PyArg.str "2024-01-01")
        (PyArg.str "2024-01-05") (PyArg.str "daily") PyArg.pyNone
        [("fields", PyArg.strList ["close"])]
      = Except.error (PyExc.typeError "unhashable type") := by
  refine ⟨by decide, ?_⟩
  exact unhashable_argument_raises_type_error ⟨1024, []⟩ (PyArg.str "000001.SZ")
    (PyArg.str "2024-01-01") (PyArg.str "2024-01-05") (PyArg.str "daily") PyArg.pyNone
    [("fields", PyArg.strList ["close"])] (by decide)

/-! ## C8: resolver determinism across symbol spellings -/

/-- C8.  For a fixed directory state holding an active record `r` of the
usual A-share shape — a bare 6-digit code, an exchange-qualified
`CODE.EXCHANGE` full code, a non-numeric display name — and for which the
directory queries resolve to `r` (its code row is the active row under its
code, and `r` is the first active row matching its name exactly and by
substring), resolving the exchange-qualified code, the bare code and the
display name all return the same canonical tuple
`(true, full_code, name, type, listing_date)` of `r`. -/
theorem resolver_deterministic_across_spellings (t : List DirRow) (r : DirRow)
    (hb1 : pyStrip r.code = r.code) (hb2 : pyUpper r.code = r.code)
    (hb3 : pyContainsDot r.code = false) (hb4 : pyIsdigit r.code = true)
    (hb5 : r.code.length = 6)
    (hf1 : pyStrip r.full_code = r.full_code) (hf2 : pyUpper r.full_code = r.full_code)
    (hf3 : pyContainsDot r.full_code = true)
    (hf4 : (splitDot r.full_code).headD "" = r.code)
    (hn1 : pyStrip r.name = r.name) (hn2 : pyUpper r.name = r.name)
    (hn3 : pyContainsDot r.name = false)
    (hn4 : (pyIsdigit r.name && decide (r.name.length = 6)) = false)
    (hq1 : queryNameByCode t r.code = some r.name)
    (hq2 : queryNameLike t r.name = some r.name)
    (hq3 : t.find? (fun q => decide (q.name = r.name) && q.is_active) = some r) :
    is_valid_a_share t r.full_code = (true, r.full_code, r.name, r.type, r.listing_date)
    ∧ is_valid_a_share t r.code = (true, r.full_code, r.name, r.type, r.listing_date)
    ∧ is_valid_a_share t r.name = (true, r.full_code, r.name, r.type, r.listing_date) := by
  have g1 : get_stock_name t r.code = some r.name := by
    simp only [get_stock_name, hb1, hb2, hb3, hb4, hb5]
    simp [hq1]
  have g2 : get_stock_name t r.full_code = some r.name := by
    simp only [get_stock_name, hf1, hf2, hf3, hf4, hb5]
    simp [hq1]
  have g3 : get_stock_name t r.name = some r.name := by
    simp only [get_stock_name, hn1, hn2, hn3, hn4]
    simp [hq2]
  have v : ∀ x, get_stock_name t x = some r.name →
      is_valid_a_share t x = (true, r.full_code, r.name, r.type, r.listing_date) := by
    intro x hx
    unfold is_valid_a_share
    rw [hx]
    simp [hq3]
  exact ⟨v r.full_code g2, v r.code g1, v r.name g3⟩

/-- First row of the C8/C9 witness directory. -/
def c8Row0 : DirRow :=
  ⟨"000001", "平安银行", "000001.SZ", "SZ", "股票", "1991-04-03", true, "2024-03-04T09:00:00"⟩

/-- Second row of the C8/C9 witness directory. -/
def c8Row1 : DirRow :=
  ⟨"600519", "贵州茅台", "600519.SH", "SH", "股票", "2001-08-27", true, "2024-03-04T09:00:00"⟩

/-- The C8/C9 witness directory state. -/
def c8Table : List DirRow := [c8Row0, c8Row1]

/-- Witness for C8: the three spellings of the first record resolve to the
same canonical tuple on the concrete directory. -/
theorem resolver_deterministic_witness :
    is_valid_a_share c8Table "000001.SZ" = (true, "000001.SZ", "平安银行", "股票", "1991-04-03")
    ∧ is_valid_a_share c8Table "000001" = (true, "000001.SZ", "平安银行", "股票", "1991-04-03")
    ∧ is_valid_a_share c8Table "平安银行" = (true, "000001.SZ", "平安银行", "股票", "1991-04-03") := by
  exact resolver_deterministic_across_spellings c8Table c8Row0
    (by decide) (by decide) (by decide) (by decide) (by decide)
    (by decide) (by decide) (by decide) (by decide)
    (by decide) (by decide) (by decide) (by decide)
    (by decide) (by decide) (by decide)

/-! ## C9: `get_asset_metadata` against `validate_symbol` -/

/-- C9.  `get_asset_metadata` fails with `SymbolValidationError` exactly
when `validate_symbol` returns false; when it succeeds, the returned dict
carries the `full_code`, `name`, `type` and `listing_date` of the directory
record the resolver found (the first active row under the resolved name). -/
theorem get_asset_metadata_matches_validate_symbol (t : List DirRow) (s : String) :
    ((∃ m, get_asset_metadata t s = Except.ok m) ↔ validate_symbol t s = true)
    ∧ (validate_symbol t s = false →
        get_asset_metadata t s = Except.error (AdapterError.symbolValidation s))
    ∧ (∀ m, get_asset_metadata t s = Except.ok m →
        ∃ n r, get_stock_name t s = some n
          ∧ t.find? (fun q => decide (q.name = n) && q.is_active) = some r
          ∧ m = ⟨r.full_code, r.name, r.type, r.listing_date⟩) := by
  cases hn : get_stock_name t s with
  | none =>
    refine ⟨?_, ?_, ?_⟩
    · simp [validate_symbol, get_asset_metadata, is_valid_a_share, hn]
    · intro _
      simp [get_asset_metadata, is_valid_a_share, hn]
    · intro m hm
      simp [get_asset_metadata, is_valid_a_share, hn] at hm
  | some n =>
    cases hf : t.find? (fun q => decide (q.name = n) && q.is_active) with
    | none =>
      refine ⟨?_, ?_, ?_⟩
      · simp [validate_symbol, get_asset_metadata, is_valid_a_share, hn, hf]
      · intro _
        simp [get_asset_metadata, is_valid_a_share, hn, hf]
      · intro m hm
        simp [get_asset_metadata, is_valid_a_share, hn, hf] at hm
    | some r =>
      have hok : get_asset_metadata t s =
          Except.ok ⟨r.full_code, r.name, r.type, r.listing_date⟩ := by
        simp [get_asset_metadata, is_valid_a_share, hn, hf]
      refine ⟨?_, ?_, ?_⟩
      · simp [validate_symbol, is_valid_a_share, hn, hf, hok]
      · intro hv
        simp [validate_symbol, is_valid_a_share, hn, hf] at hv
      · intro m hm
        rw [hok] at hm
        exact ⟨n, r, rfl, hf, (Except.ok.inj hm).symm⟩

/-- Witness for C9: an unknown symbol on the concrete directory is invalid
and raises, a known one succeeds. -/
theorem get_asset_metadata_matches_witness :
    validate_symbol c8Table "999999" = false
    ∧ get_asset_metadata c8Table "999999" =
        Except.error (AdapterError.symbolValidation "999999") := by
  refine ⟨by decide, ?_⟩
  exact (get_asset_metadata_matches_validate_symbol c8Table "999999").2.1 (by decide)

end GlobalDataEngine
